import Mathlib

/-!
Verification of the Sidecar Health data-collection engine
(`src/data_collection.py`): the workload partitioner, the collection
orchestrator with checkpointing and consecutive-failure circuit
breaking, the request executor with retry and credential refresh, the
credential-refresh operation, and the geocode-based workload filter.

Shallow embedding conventions: external I/O (HTTP responses, the
`grab_token.sh` script, the geocoder) is supplied through explicit
oracle arguments; fallible operations return `Option`; time is modelled
by recording each sleep performed.
-/

namespace SidecarCollector

/-! ## Workload partitioner (`read_zipcode_file`, lines 196-238) -/

/-- Batch slice computed inside `read_zipcode_file` (lines 207-224):
`batch_size = total_zips // total_batches`,
`remainder = total_zips % total_batches`,
`start_idx = (batch_num - 1) * batch_size + (batch_num - 1 if
batch_num <= remainder else remainder)`,
`current_batch_size = batch_size + (1 if batch_num <= remainder else 0)`,
result `zipcodes[start_idx : start_idx + current_batch_size]`. -/
def batch_slice {α : Type} (zipcodes : List α) (batch_num total_batches : ℕ) : List α :=
  let total_zips := zipcodes.length
  let batch_size := total_zips / total_batches
  let remainder := total_zips % total_batches
  let start_idx := (batch_num - 1) * batch_size +
    (if batch_num ≤ remainder then batch_num - 1 else remainder)
  let current_batch_size := batch_size + (if batch_num ≤ remainder then 1 else 0)
  (zipcodes.drop start_idx).take current_batch_size

/-- `read_zipcode_file` after the file has been read into a list of
lines (lines 196-235): batch filtering applies only when both batch
fields are truthy (nonzero); test mode keeps the first two codes. -/
def read_zipcode_file {α : Type} (zipcodes : List α) (batch_info : Option (ℕ × ℕ))
    (test_mode : Bool) : List α :=
  let zs :=
    match batch_info with
    | some bi => if bi.1 ≠ 0 ∧ bi.2 ≠ 0 then batch_slice zipcodes bi.1 bi.2 else zipcodes
    | none => zipcodes
  if test_mode then zs.take 2 else zs

/-- Start offset of a batch, in the closed form used by the spec. -/
def batch_start (L N b : ℕ) : ℕ :=
  (b - 1) * (L / N) + min (b - 1) (L % N)

/-- Length assigned to a batch. -/
def batch_len (L N b : ℕ) : ℕ :=
  L / N + (if b ≤ L % N then 1 else 0)

lemma if_sub_one_eq_min (b r : ℕ) :
    (if b ≤ r then b - 1 else r) = min (b - 1) r := by
  rcases le_or_lt b r with h | h
  · rw [if_pos h, Nat.min_eq_left (by omega)]
  · rw [if_neg (by omega), Nat.min_eq_right (by omega)]

lemma batch_slice_eq_drop_take {α : Type} (zipcodes : List α) (b N : ℕ) :
    batch_slice zipcodes b N =
      (zipcodes.drop (batch_start zipcodes.length N b)).take
        (batch_len zipcodes.length N b) := by
  simp only [batch_slice, batch_start, batch_len]
  rw [if_sub_one_eq_min]

lemma batch_start_add_len (L N b : ℕ) (hb : 1 ≤ b) :
    batch_start L N b + batch_len L N b = batch_start L N (b + 1) := by
  simp only [batch_start, batch_len]
  simp only [Nat.add_sub_cancel]
  have hmul : b * (L / N) = (b - 1) * (L / N) + L / N := by
    have hb1 : b = (b - 1) + 1 := by omega
    calc b * (L / N) = ((b - 1) + 1) * (L / N) := by rw [← hb1]
      _ = (b - 1) * (L / N) + 1 * (L / N) := by rw [Nat.add_mul]
      _ = (b - 1) * (L / N) + L / N := by rw [Nat.one_mul]
  rw [hmul]
  have hmin : min b (L % N) = min (b - 1) (L % N) + (if b ≤ L % N then 1 else 0) := by
    rcases le_or_lt b (L % N) with h | h
    · rw [if_pos h, Nat.min_eq_left h, Nat.min_eq_left (by omega)]
      omega
    · rw [if_neg (by omega), Nat.min_eq_right (by omega), Nat.min_eq_right (by omega)]
      omega
  rw [hmin]
  generalize (b - 1) * (L / N) = X
  generalize min (b - 1) (L % N) = M
  generalize (if b ≤ L % N then 1 else 0) = I
  omega

lemma batch_start_one (L N : ℕ) : batch_start L N 1 = 0 := by
  unfold batch_start
  simp

lemma batch_start_mono (L N : ℕ) :
    ∀ (k b : ℕ), 1 ≤ b → batch_start L N b ≤ batch_start L N (b + k) := by
  intro k
  induction k with
  | zero => intro b _; exact Nat.le_refl _
  | succ n ih =>
    intro b hb
    have h1 : batch_start L N b ≤ batch_start L N (b + n) := ih b hb
    have h2 : batch_start L N (b + n) ≤ batch_start L N (b + n + 1) := by
      rw [← batch_start_add_len L N (b + n) (by omega)]
      omega
    have h3 : b + n + 1 = b + (n + 1) := by rw [Nat.add_assoc]
    rw [← h3]
    exact Nat.le_trans h1 h2

lemma batch_start_last (L N : ℕ) (hN : 1 ≤ N) : batch_start L N (N + 1) = L := by
  unfold batch_start
  have hmod : L % N < N := Nat.mod_lt L hN
  have hmin : min (N + 1 - 1) (L % N) = L % N := by
    simp only [Nat.add_sub_cancel]
    omega
  rw [hmin]
  simp only [Nat.add_sub_cancel]
  exact Nat.div_add_mod L N

lemma batch_start_le_length (L N b : ℕ) (hN : 1 ≤ N) (hb : 1 ≤ b) (hbN : b ≤ N) :
    batch_start L N b + batch_len L N b ≤ L := by
  rw [batch_start_add_len L N b hb]
  have hmono := batch_start_mono L N (N - b) (b + 1) (by omega)
  have heq : b + 1 + (N - b) = N + 1 := by omega
  rw [heq] at hmono
  rw [batch_start_last L N hN] at hmono
  exact hmono

lemma batch_slice_length {α : Type} (items : List α) (N b : ℕ)
    (hN : 1 ≤ N) (hb : 1 ≤ b) (hbN : b ≤ N) :
    (batch_slice items b N).length = batch_len items.length N b := by
  rw [batch_slice_eq_drop_take]
  rw [List.length_take, List.length_drop]
  have := batch_start_le_length items.length N b hN hb hbN
  omega

lemma join_batches {α : Type} (items : List α) (N : ℕ) (hN : 1 ≤ N) :
    ∀ (k b : ℕ), 1 ≤ b → b + k = N + 1 →
      ((List.range' b k).map fun i => batch_slice items i N).flatten =
        items.drop (batch_start items.length N b) := by
  intro k
  induction k with
  | zero =>
    intro b hb hbk
    have hb1 : b = N + 1 := by omega
    subst hb1
    rw [batch_start_last items.length N hN]
    simp [List.drop_length]
  | succ n ih =>
    intro b hb hbk
    rw [List.range'_succ]
    simp only [List.map_cons, List.flatten_cons]
    rw [ih (b + 1) (by omega) (by omega)]
    rw [batch_slice_eq_drop_take]
    rw [← batch_start_add_len items.length N b hb]
    rw [← List.drop_drop]
    exact List.take_append_drop _ _

lemma batch_len_cases (L N b : ℕ) :
    batch_len L N b = L / N ∨ batch_len L N b = L / N + 1 := by
  unfold batch_len
  split_ifs <;> simp

lemma batch_sizes_sum {α : Type} (items : List α) (N : ℕ) (hN : 1 ≤ N) :
    (((List.range' 1 N).map fun b => (batch_slice items b N).length).sum = items.length) := by
  have hmm : ((List.range' 1 N).map fun b => (batch_slice items b N).length) =
      ((List.range' 1 N).map fun b => batch_slice items b N).map List.length := by
    rw [List.map_map]
    rfl
  rw [hmm, ← List.length_flatten]
  rw [join_batches items N hN N 1 (by omega) (by omega)]
  rw [batch_start_one]
  rfl

/-- C1: for every list of work items of length L, every batch count
N ≥ 1, and every batch index in [1, N], the partitioner returns the
contiguous slice starting at offset (b-1)*(L/N) + min (b-1) (L%N) with
length L/N + 1 if b ≤ L%N and L/N otherwise; the slice lengths sum to
L and differ pairwise by at most 1; the concatenation of the slices in
batch order is the original list; and 10 items split into 3 batches
yield sizes [4, 3, 3]. -/
theorem c1_partitioner_correct {α : Type} (items : List α) (N : ℕ) (hN : 1 ≤ N) :
    (∀ b, 1 ≤ b → b ≤ N →
      batch_slice items b N =
        (items.drop ((b - 1) * (items.length / N) + min (b - 1) (items.length % N))).take
          (items.length / N + (if b ≤ items.length % N then 1 else 0)) ∧
      (batch_slice items b N).length =
        items.length / N + (if b ≤ items.length % N then 1 else 0) ∧
      read_zipcode_file items (some (b, N)) false = batch_slice items b N) ∧
    (((List.range' 1 N).map fun b => (batch_slice items b N).length).sum = items.length) ∧
    (∀ b1 b2, 1 ≤ b1 → b1 ≤ N → 1 ≤ b2 → b2 ≤ N →
      (batch_slice items b1 N).length ≤ (batch_slice items b2 N).length + 1) ∧
    (((List.range' 1 N).map fun b => batch_slice items b N).flatten = items) ∧
    (((List.range' 1 3).map fun b => (batch_slice (List.range 10) b 3).length) = [4, 3, 3]) := by
  refine ⟨?_, batch_sizes_sum items N hN, ?_, ?_, by decide⟩
  · intro b hb hbN
    refine ⟨?_, ?_, ?_⟩
    · simpa [batch_start, batch_len] using batch_slice_eq_drop_take items b N
    · simpa [batch_len] using batch_slice_length items N b hN hb hbN
    · simp only [read_zipcode_file]
      rw [if_neg (by simp : ¬(false = true))]
      rw [if_pos (show b ≠ 0 ∧ N ≠ 0 from ⟨by omega, by omega⟩)]
  · intro b1 b2 hb1 hb1N hb2 hb2N
    rw [batch_slice_length items N b1 hN hb1 hb1N, batch_slice_length items N b2 hN hb2 hb2N]
    rcases batch_len_cases items.length N b1 with h1 | h1 <;>
      rcases batch_len_cases items.length N b2 with h2 | h2 <;> omega
  · have hjoin := join_batches items N hN N 1 (by omega) (by omega)
    rw [batch_start_one] at hjoin
    simpa using hjoin

/-- Witness for c1_partitioner_correct: 10 items in 3 batches
concatenate back to the original list. -/
theorem c1_partitioner_correct_witness :
    1 ≤ 3 ∧
      (((List.range' 1 3).map fun b => batch_slice (List.range 10) b 3).flatten =
        List.range 10) :=
  ⟨by decide, (c1_partitioner_correct (List.range 10) 3 (by decide)).2.2.2.1⟩

/-! ## Checkpoint store, circuit breaker and orchestrator
(`load_progress`/`save_progress`, lines 464-480; `run_collection`,
lines 700-809) -/

/-- Progress record persisted in the progress file: list of completed
combination keys and the total-processed counter (line 472). -/
structure Progress where
  completed : List String
  total_processed : ℕ
deriving DecidableEq, Repr

/-- `load_progress` (lines 464-472): a missing or unreadable progress
file yields empty progress. -/
def load_progress (file : Option Progress) : Progress :=
  file.getD ⟨[], 0⟩

/-- Circuit-breaker fields of `SidecarAPICollector.__init__`
(lines 95-97). -/
structure Breaker where
  consecutive_failures : ℕ
  auto_stop_triggered : Bool
deriving DecidableEq, Repr

/-- Breaker transition performed by `run_collection` on one unit result
(lines 754-773): a success resets `consecutive_failures` to 0; a
failure increments it and sets `auto_stop_triggered` once the count
reaches the threshold. -/
def breakerStep (maxF : ℕ) (b : Breaker) (success : Bool) : Breaker :=
  if success then { b with consecutive_failures := 0 }
  else
    { consecutive_failures := b.consecutive_failures + 1,
      auto_stop_triggered :=
        if maxF ≤ b.consecutive_failures + 1 then true else b.auto_stop_triggered }

/-- Default threshold `max_consecutive_failures` (line 96). -/
def max_consecutive_failures : ℕ := 10

/-- Observable state of one `run_collection` execution (lines 700-793):
`progress` is the in-memory checkpoint dict, `saved` mirrors the
backing progress file (`save_progress`), `requests` records the keys
passed to `make_api_request` in order, `rows_written` counts CSV data
rows appended, and `rate_waits` counts `request_delay` sleeps. -/
structure RunState where
  progress : Progress
  saved : Progress
  breaker : Breaker
  failed_combinations : List String
  requests : List String
  rows_written : ℕ
  rate_waits : ℕ
deriving DecidableEq, Repr

/-- Body of the `run_collection` loop for one unit that is neither
skipped nor halted (lines 745-793): issue the request, update the
breaker and failure list, append the rows on success, append the key to
the checkpoint, bump the counter, persist, and sleep. `api_result` is
`none` when `make_api_request` returned `None`, and `some rows` when it
returned a response from which `extract_pharmacy_data` extracts `rows`
data rows. -/
def run_collection_unit (maxF : ℕ) (s : RunState) (key : String)
    (api_result : Option ℕ) : RunState :=
  let s1 :=
    match api_result with
    | some rows =>
      { s with breaker := breakerStep maxF s.breaker true,
               rows_written := s.rows_written + rows }
    | none =>
      { s with breaker := breakerStep maxF s.breaker false,
               failed_combinations := s.failed_combinations ++ [key] }
  let progress1 : Progress :=
    ⟨s1.progress.completed ++ [key], s1.progress.total_processed + 1⟩
  { s1 with progress := progress1, saved := progress1,
            requests := s1.requests ++ [key],
            rate_waits := s1.rate_waits + 1 }

/-- The nested `run_collection` loop over work units in deterministic
cross-product order (lines 726-793). Each unit carries its combination
key and the executor outcome it would observe. The skip check
(line 731) precedes the auto-stop check (line 738), which returns from
the whole function. -/
def run_collection (maxF : ℕ) (s : RunState) : List (String × Option ℕ) → RunState
  | [] => s
  | (key, res) :: rest =>
    if key ∈ s.progress.completed then run_collection maxF s rest
    else if s.breaker.auto_stop_triggered then s
    else run_collection maxF (run_collection_unit maxF s key res) rest

/-- State at the start of `run_collection` after loading the checkpoint
(lines 94-97 and 710): fresh breaker, no requests issued, persisted
file content equal to the loaded progress. -/
def init_state (loaded : Progress) : RunState :=
  { progress := loaded, saved := loaded,
    breaker := { consecutive_failures := 0, auto_stop_triggered := false },
    failed_combinations := [], requests := [], rows_written := 0, rate_waits := 0 }

/-- Combination key of a work unit (line 728). -/
def combination_key (procedure_code zip : String) : String :=
  procedure_code ++ "_" ++ zip

/-- Keys a resumed run still has to request, in cross-product order:
first occurrences of keys not yet in the checkpoint. -/
def remaining_keys : List String → List (String × Option ℕ) → List String
  | _, [] => []
  | completed, (key, _) :: rest =>
    if key ∈ completed then remaining_keys completed rest
    else key :: remaining_keys (completed ++ [key]) rest

/-! ## Request executor (`make_api_request`, lines 528-620) -/

/-- Outcome the network produces for one attempt of the retry loop:
an HTTP 200 with a parsed body, a 401, a 403, a 429, any other status
(recording whether the response text mentions token/unauthorized), a
timeout exception, or another transport exception (recording whether
its text mentions unauthorized). -/
inductive AttemptOutcome where
  | success (body : ℕ)
  | unauthorized
  | forbidden
  | rateLimited
  | otherStatus (mentions_token : Bool)
  | timeout
  | transportError (mentions_unauthorized : Bool)
deriving DecidableEq, Repr

/-- Result of one `make_api_request` call: the returned value (`none`
models Python `None`), the number of `refresh_token` invocations, the
sleeps performed inside the call in order, and the number of loop
iterations (attempts) begun. -/
structure CallResult where
  result : Option ℕ
  refresh_calls : ℕ
  sleeps : List ℕ
  attempts : ℕ
deriving DecidableEq, Repr

/-- Sleep at the bottom of the retry loop (lines 615-617): performed
only when another attempt remains (`attempt < max_retries - 1`). -/
def retry_sleep (retry_delay : ℕ) (rest : List AttemptOutcome) : List ℕ :=
  if rest.isEmpty then [] else [retry_delay]

/-- The `for attempt in range(self.max_retries)` loop of
`make_api_request` (lines 542-620). `refresh_ok i` is the result of the
i-th `refresh_token` invocation of this call; `refreshed` is
`token_refreshed_this_request`; `attempt` is the Python loop index,
used only by the timeout branch's first-attempt check (line 599). -/
def api_attempt_loop (retry_delay : ℕ) (refresh_ok : ℕ → Bool) :
    List AttemptOutcome → ℕ → Bool → ℕ → List ℕ → ℕ → CallResult
  | [], _, _, rc, sleeps, att => ⟨none, rc, sleeps, att⟩
  | outcome :: rest, attempt, refreshed, rc, sleeps, att =>
    match outcome with
    | .success body => ⟨some body, rc, sleeps, att + 1⟩
    | .unauthorized =>
      if refreshed then ⟨none, rc, sleeps, att + 1⟩
      else if refresh_ok rc then
        api_attempt_loop retry_delay refresh_ok rest (attempt + 1) true (rc + 1) sleeps (att + 1)
      else ⟨none, rc + 1, sleeps, att + 1⟩
    | .forbidden =>
      if refreshed then ⟨none, rc, sleeps, att + 1⟩
      else if refresh_ok rc then
        api_attempt_loop retry_delay refresh_ok rest (attempt + 1) true (rc + 1) sleeps (att + 1)
      else ⟨none, rc + 1, sleeps, att + 1⟩
    | .rateLimited =>
      api_attempt_loop retry_delay refresh_ok rest (attempt + 1) refreshed rc
        (sleeps ++ [retry_delay * 2]) (att + 1)
    | .otherStatus mentions_token =>
      if mentions_token = true ∧ refreshed = false then
        if refresh_ok rc then
          api_attempt_loop retry_delay refresh_ok rest (attempt + 1) true (rc + 1) sleeps (att + 1)
        else
          api_attempt_loop retry_delay refresh_ok rest (attempt + 1) false (rc + 1)
            (sleeps ++ retry_sleep retry_delay rest) (att + 1)
      else
        api_attempt_loop retry_delay refresh_ok rest (attempt + 1) refreshed rc
          (sleeps ++ retry_sleep retry_delay rest) (att + 1)
    | .timeout =>
      if attempt = 0 ∧ refreshed = false then
        if refresh_ok rc then
          api_attempt_loop retry_delay refresh_ok rest (attempt + 1) true (rc + 1) sleeps (att + 1)
        else
          api_attempt_loop retry_delay refresh_ok rest (attempt + 1) false (rc + 1)
            (sleeps ++ retry_sleep retry_delay rest) (att + 1)
      else
        api_attempt_loop retry_delay refresh_ok rest (attempt + 1) refreshed rc
          (sleeps ++ retry_sleep retry_delay rest) (att + 1)
    | .transportError mentions_unauthorized =>
      if mentions_unauthorized = true ∧ refreshed = false then
        if refresh_ok rc then
          api_attempt_loop retry_delay refresh_ok rest (attempt + 1) true (rc + 1) sleeps (att + 1)
        else
          api_attempt_loop retry_delay refresh_ok rest (attempt + 1) false (rc + 1)
            (sleeps ++ retry_sleep retry_delay rest) (att + 1)
      else
        api_attempt_loop retry_delay refresh_ok rest (attempt + 1) refreshed rc
          (sleeps ++ retry_sleep retry_delay rest) (att + 1)

/-- `make_api_request` (lines 528-620): run the retry loop over one
outcome per potential attempt (`attempt_outcomes.length = max_retries`,
3 in the source), starting with no refresh performed. -/
def make_api_request (retry_delay : ℕ) (refresh_ok : ℕ → Bool)
    (attempt_outcomes : List AttemptOutcome) : CallResult :=
  api_attempt_loop retry_delay refresh_ok attempt_outcomes 0 false 0 [] 0

example : make_api_request 2 (fun _ => true) [.unauthorized, .success 7, .otherStatus false] =
    ⟨some 7, 1, [], 2⟩ := by decide
example : make_api_request 2 (fun _ => false) [.timeout, .timeout, .timeout] =
    ⟨none, 1, [2, 2], 3⟩ := by decide
example : make_api_request 2 (fun _ => false) [.rateLimited, .rateLimited, .success 5] =
    ⟨some 5, 0, [4, 4], 3⟩ := by decide
example : make_api_request 2 (fun _ => false) [.otherStatus true, .otherStatus true, .otherStatus true] =
    ⟨none, 3, [2, 2], 3⟩ := by decide
example : make_api_request 2 (fun _ => true) [.otherStatus false, .otherStatus false, .unauthorized] =
    ⟨none, 1, [2, 2], 3⟩ := by decide

/-! ## Credential provider (`refresh_token`, lines 482-526) -/

/-- Both-ends strip of the characters selected by `p`, as in Python
`str.strip`. -/
def strip_chars (p : Char → Bool) (cs : List Char) : List Char :=
  ((cs.dropWhile p).reverse.dropWhile p).reverse

/-- The single-quote character, written by code point. -/
def single_quote : Char := Char.ofNat 39

/-- The double-quote character, written by code point. -/
def double_quote : Char := Char.ofNat 34

/-- Python `.strip().strip(double_quote).strip(single_quote)` applied
to every parsed credential value (lines 500-502). -/
def clean_value (s : String) : String :=
  String.mk (strip_chars (fun c => c = single_quote)
    (strip_chars (fun c => c = double_quote)
      (strip_chars Char.isWhitespace s.toList)))

/-- Python `line.startswith(pre)`, computed on the character lists. -/
def line_starts_with (pre line : String) : Bool :=
  pre.toList.isPrefixOf line.toList

/-- Python `line.split(sep, 1)[1]` for a line known to start with the
`n`-character separator-terminated tag: everything after position `n`. -/
def drop_tag (line : String) (n : ℕ) : String :=
  String.mk (line.toList.drop n)

/-- Scan of the script output lines (lines 498-502): the last line
starting with TOKEN= / MEMBERUUID= wins; the value is everything after
the first equals sign, cleaned. -/
def parse_refresh_output (lines : List String) : Option String × Option String :=
  lines.foldl
    (fun acc line =>
      if line_starts_with "TOKEN=" line then (some (clean_value (drop_tag line 6)), acc.2)
      else if line_starts_with "MEMBERUUID=" line then
        (acc.1, some (clean_value (drop_tag line 11)))
      else acc)
    (none, none)

/-- Credential state mutated by `refresh_token`: `self.token`,
`self.headers['token']`, `self.static_params['memberUuid']`, and the
two environment mirrors (lines 505-512). -/
structure CredState where
  token : String
  headers_token : String
  static_member_uuid : String
  env_token : String
  env_member_uuid : String
deriving DecidableEq, Repr

/-- `refresh_token` (lines 482-526). `script_output` is the stdout
lines of `grab_token.sh`, or `none` when the script fails or raises (in
which case the except blocks return False without touching state). The
update happens only when both parsed values are truthy (non-empty). -/
def refresh_token (st : CredState) (script_output : Option (List String)) :
    CredState × Bool :=
  match script_output with
  | none => (st, false)
  | some lines =>
    match parse_refresh_output lines with
    | (some new_token, some new_member_uuid) =>
      if new_token ≠ "" ∧ new_member_uuid ≠ "" then
        ({ token := new_token, headers_token := new_token,
           static_member_uuid := new_member_uuid,
           env_token := new_token, env_member_uuid := new_member_uuid }, true)
      else (st, false)
    | (_, _) => (st, false)

example : refresh_token ⟨"a", "a", "b", "a", "b"⟩ (some ["TOKEN=xyz", "MEMBERUUID=m1"]) =
    (⟨"xyz", "xyz", "m1", "xyz", "m1"⟩, true) := by decide
example : refresh_token ⟨"a", "a", "b", "a", "b"⟩ (some ["TOKEN=xyz"]) =
    (⟨"a", "a", "b", "a", "b"⟩, false) := by decide

/-! ## Geocoded workload (`get_zip_codes_with_coordinates`,
lines 240-302) -/

/-- One geocoded location entry as appended at lines 280-286. -/
structure ZipData where
  zip : String
  lat : ℚ
  lng : ℚ
  state : String
  city : String
deriving DecidableEq, Repr

/-- Core of `get_zip_codes_with_coordinates` (lines 262-302): geocode
every code of every state file, drop the codes the geocoder cannot
resolve, and substitute `state ++ "_City"` when the resolved city is
empty. `geo` abstracts `geocode_zipcode` (cache plus Nominatim lookup,
lines 140-194), returning `none` when no coordinates are resolvable. -/
def get_zip_codes_with_coordinates
    (geo : String → String → Option (ℚ × ℚ × String))
    (state_files : List (String × List String)) : List ZipData :=
  state_files.flatMap fun sf =>
    sf.2.filterMap fun zipcode =>
      match geo zipcode sf.1 with
      | none => none
      | some (lat, lng, city) =>
        some { zip := zipcode, lat := lat, lng := lng, state := sf.1,
               city := if city = "" then sf.1 ++ "_City" else city }

/-- Keys of the `drugs × zip_codes` cross product in the deterministic
loop order of `run_collection` (lines 726-728). -/
def work_units (drug_codes : List String) (zips : List ZipData) : List String :=
  drug_codes.flatMap fun code => zips.map fun z => combination_key code z.zip

/-! ## Circuit-breaker lemmas -/

lemma breakerStep_sticky (maxF : ℕ) (b : Breaker) (succ : Bool)
    (h : b.auto_stop_triggered = true) :
    (breakerStep maxF b succ).auto_stop_triggered = true := by
  cases succ
  · unfold breakerStep
    simp only [Bool.false_eq_true, if_false]
    split_ifs <;> simp [h]
  · simp [breakerStep, h]

lemma breaker_replicate (maxF : ℕ) (hmax : 1 ≤ maxF) (n : ℕ) :
    (List.replicate n false).foldl (breakerStep maxF) ⟨0, false⟩ =
      ⟨n, decide (maxF ≤ n)⟩ := by
  induction n with
  | zero =>
    simp only [List.replicate, List.foldl_nil]
    congr 1
    symm
    simp only [decide_eq_false_iff_not]
    omega
  | succ k ih =>
    rw [List.replicate_succ' k false, List.foldl_append, ih]
    simp only [List.foldl_cons, List.foldl_nil]
    unfold breakerStep
    simp only [Bool.false_eq_true, if_false]
    congr 1
    by_cases h : maxF ≤ k + 1
    · rw [if_pos h]
      symm
      simp only [decide_eq_true_eq]
      exact h
    · rw [if_neg h]
      simp only [decide_eq_decide]
      omega

/-- C3: the consecutive-failure counter increments by 1 on each failure
and resets to 0 on any success; the breaker reports tripped exactly when
the counter reaches the configured threshold — after the Nth
consecutive failure from a fresh state and not before — and once
tripped it stays tripped for the rest of the run. -/
theorem c3_circuit_breaker (maxF : ℕ) (hmax : 1 ≤ maxF) :
    (∀ b : Breaker,
      (breakerStep maxF b false).consecutive_failures = b.consecutive_failures + 1) ∧
    (∀ b : Breaker, (breakerStep maxF b true).consecutive_failures = 0) ∧
    (∀ (b : Breaker) (succ : Bool),
      ((breakerStep maxF b succ).auto_stop_triggered = true ↔
        (b.auto_stop_triggered = true ∨
          (succ = false ∧ maxF ≤ b.consecutive_failures + 1)))) ∧
    (∀ n : ℕ,
      ((List.replicate n false).foldl (breakerStep maxF)
          ⟨0, false⟩).auto_stop_triggered = true ↔ maxF ≤ n) ∧
    (∀ (outcomes : List Bool) (b : Breaker), b.auto_stop_triggered = true →
      (outcomes.foldl (breakerStep maxF) b).auto_stop_triggered = true) := by
  refine ⟨?_, ?_, ?_, ?_, ?_⟩
  · intro b
    simp [breakerStep]
  · intro b
    simp [breakerStep]
  · intro b succ
    cases succ
    · unfold breakerStep
      simp only [Bool.false_eq_true, if_false]
      split_ifs with h
      · simp [h]

      · simp [h]
    · simp [breakerStep]
  · intro n
    rw [breaker_replicate maxF hmax n]
    simp
  · intro outcomes
    induction outcomes with
    | nil => intro b h; exact h
    | cons o rest ih =>
      intro b h
      simp only [List.foldl_cons]
      exact ih (breakerStep maxF b o) (breakerStep_sticky maxF b o h)

/-- Witness for c3_circuit_breaker at the source threshold 10: tripped
after exactly the tenth consecutive failure from fresh. -/
theorem c3_circuit_breaker_witness :
    1 ≤ max_consecutive_failures ∧
      (∀ n : ℕ,
        ((List.replicate n false).foldl (breakerStep max_consecutive_failures)
            ⟨0, false⟩).auto_stop_triggered = true ↔ max_consecutive_failures ≤ n) :=
  ⟨by decide, (c3_circuit_breaker max_consecutive_failures (by decide)).2.2.2.1⟩

/-! ## Run-loop lemmas -/

lemma run_unit_fields (maxF : ℕ) (s : RunState) (key : String) (res : Option ℕ) :
    (run_collection_unit maxF s key res).progress.completed = s.progress.completed ++ [key] ∧
    (run_collection_unit maxF s key res).progress.total_processed =
      s.progress.total_processed + 1 ∧
    (run_collection_unit maxF s key res).saved = (run_collection_unit maxF s key res).progress ∧
    (run_collection_unit maxF s key res).requests = s.requests ++ [key] := by
  cases res <;> simp [run_collection_unit]

lemma run_unit_success_breaker (maxF : ℕ) (s : RunState) (key : String) (rows : ℕ) :
    (run_collection_unit maxF s key (some rows)).breaker = breakerStep maxF s.breaker true := by
  simp [run_collection_unit]

lemma run_unit_failure_breaker (maxF : ℕ) (s : RunState) (key : String) :
    (run_collection_unit maxF s key none).breaker = breakerStep maxF s.breaker false := by
  simp [run_collection_unit]

lemma run_collection_skip (maxF : ℕ) (s : RunState) (key : String) (res : Option ℕ)
    (rest : List (String × Option ℕ)) (h : key ∈ s.progress.completed) :
    run_collection maxF s ((key, res) :: rest) = run_collection maxF s rest := by
  simp [run_collection, h]

lemma run_collection_halted (maxF : ℕ) :
    ∀ (units : List (String × Option ℕ)) (s : RunState),
      s.breaker.auto_stop_triggered = true → run_collection maxF s units = s := by
  intro units
  induction units with
  | nil => intro s _; rfl
  | cons u rest ih =>
    intro s h
    obtain ⟨key, res⟩ := u
    by_cases hk : key ∈ s.progress.completed
    · rw [run_collection_skip maxF s key res rest hk]
      exact ih s h
    · simp [run_collection, hk, h]

lemma run_completed_extend (maxF : ℕ) :
    ∀ (units : List (String × Option ℕ)) (s : RunState),
      ∃ t, (run_collection maxF s units).progress.completed = s.progress.completed ++ t := by
  intro units
  induction units with
  | nil => intro s; exact ⟨[], by simp [run_collection]⟩
  | cons u rest ih =>
    intro s
    obtain ⟨key, res⟩ := u
    by_cases hk : key ∈ s.progress.completed
    · rw [run_collection_skip maxF s key res rest hk]
      exact ih s
    · by_cases hstop : s.breaker.auto_stop_triggered = true
      · exact ⟨[], by simp [run_collection, hk, hstop]⟩
      · have hstep : run_collection maxF s ((key, res) :: rest) =
            run_collection maxF (run_collection_unit maxF s key res) rest := by
          simp [run_collection, hk, hstop]
        obtain ⟨t, ht⟩ := ih (run_collection_unit maxF s key res)
        refine ⟨key :: t, ?_⟩
        rw [hstep, ht, (run_unit_fields maxF s key res).1]
        simp

lemma run_counter_delta (maxF : ℕ) :
    ∀ (units : List (String × Option ℕ)) (s : RunState),
      (run_collection maxF s units).progress.total_processed
          + s.progress.completed.length =
        s.progress.total_processed
          + (run_collection maxF s units).progress.completed.length := by
  intro units
  induction units with
  | nil => intro s; simp [run_collection]
  | cons u rest ih =>
    intro s
    obtain ⟨key, res⟩ := u
    by_cases hk : key ∈ s.progress.completed
    · rw [run_collection_skip maxF s key res rest hk]
      exact ih s
    · by_cases hstop : s.breaker.auto_stop_triggered = true
      · simp [run_collection, hk, hstop]
      · have hstep : run_collection maxF s ((key, res) :: rest) =
            run_collection maxF (run_collection_unit maxF s key res) rest := by
          simp [run_collection, hk, hstop]
        rw [hstep]
        have h1 := ih (run_collection_unit maxF s key res)
        obtain ⟨hc, htp, _, _⟩ := run_unit_fields maxF s key res
        rw [hc, htp] at h1
        simp only [List.length_append, List.length_cons, List.length_nil] at h1
        omega

lemma run_saved_sync (maxF : ℕ) :
    ∀ (units : List (String × Option ℕ)) (s : RunState), s.saved = s.progress →
      (run_collection maxF s units).saved = (run_collection maxF s units).progress := by
  intro units
  induction units with
  | nil => intro s h; exact h
  | cons u rest ih =>
    intro s h
    obtain ⟨key, res⟩ := u
    by_cases hk : key ∈ s.progress.completed
    · rw [run_collection_skip maxF s key res rest hk]
      exact ih s h
    · by_cases hstop : s.breaker.auto_stop_triggered = true
      · simp [run_collection, hk, hstop, h]
      · have hstep : run_collection maxF s ((key, res) :: rest) =
            run_collection maxF (run_collection_unit maxF s key res) rest := by
          simp [run_collection, hk, hstop]
        rw [hstep]
        exact ih _ (run_unit_fields maxF s key res).2.2.1

lemma run_requests_covered (maxF : ℕ) :
    ∀ (units : List (String × Option ℕ)) (s : RunState),
      (∀ k ∈ s.requests, k ∈ s.progress.completed) →
      ∀ k ∈ (run_collection maxF s units).requests,
        k ∈ (run_collection maxF s units).progress.completed := by
  intro units
  induction units with
  | nil => intro s h; exact h
  | cons u rest ih =>
    intro s h
    obtain ⟨key, res⟩ := u
    by_cases hk : key ∈ s.progress.completed
    · rw [run_collection_skip maxF s key res rest hk]
      exact ih s h
    · by_cases hstop : s.breaker.auto_stop_triggered = true
      · simp only [run_collection, if_neg hk, if_pos hstop]
        exact h
      · have hstep : run_collection maxF s ((key, res) :: rest) =
            run_collection maxF (run_collection_unit maxF s key res) rest := by
          simp [run_collection, hk, hstop]
        rw [hstep]
        refine ih _ ?_
        obtain ⟨hc, _, _, hr⟩ := run_unit_fields maxF s key res
        rw [hc, hr]
        intro k hkmem
        rcases List.mem_append.mp hkmem with hk1 | hk2
        · exact List.mem_append.mpr (Or.inl (h k hk1))
        · exact List.mem_append.mpr (Or.inr hk2)

lemma run_requests_nodup (maxF : ℕ) :
    ∀ (units : List (String × Option ℕ)) (s : RunState),
      (∀ k ∈ s.requests, k ∈ s.progress.completed) → s.requests.Nodup →
      (run_collection maxF s units).requests.Nodup := by
  intro units
  induction units with
  | nil => intro s _ hnd; exact hnd
  | cons u rest ih =>
    intro s h hnd
    obtain ⟨key, res⟩ := u
    by_cases hk : key ∈ s.progress.completed
    · rw [run_collection_skip maxF s key res rest hk]
      exact ih s h hnd
    · by_cases hstop : s.breaker.auto_stop_triggered = true
      · simp only [run_collection, if_neg hk, if_pos hstop]
        exact hnd
      · have hstep : run_collection maxF s ((key, res) :: rest) =
            run_collection maxF (run_collection_unit maxF s key res) rest := by
          simp [run_collection, hk, hstop]
        rw [hstep]
        obtain ⟨hc, _, _, hr⟩ := run_unit_fields maxF s key res
        refine ih _ ?_ ?_
        · rw [hc, hr]
          intro k hkmem
          rcases List.mem_append.mp hkmem with hk1 | hk2
          · exact List.mem_append.mpr (Or.inl (h k hk1))
          · exact List.mem_append.mpr (Or.inr hk2)
        · rw [hr]
          simp only [List.nodup_append, List.nodup_cons, List.not_mem_nil,
            not_false_iff, List.nodup_nil, and_true, true_and]
          refine ⟨hnd, ?_⟩
          intro a ha hmem
          simp only [List.mem_singleton] at hmem
          subst hmem
          exact hk (h a ha)

lemma run_requests_fresh (maxF : ℕ) :
    ∀ (units : List (String × Option ℕ)) (s : RunState),
      ∀ k ∈ (run_collection maxF s units).requests,
        k ∈ s.requests ∨ k ∉ s.progress.completed := by
  intro units
  induction units with
  | nil => intro s k hk; exact Or.inl hk
  | cons u rest ih =>
    intro s k hk
    obtain ⟨key, res⟩ := u
    by_cases hkc : key ∈ s.progress.completed
    · rw [run_collection_skip maxF s key res rest hkc] at hk
      exact ih s k hk
    · by_cases hstop : s.breaker.auto_stop_triggered = true
      · simp only [run_collection, if_neg hkc, if_pos hstop] at hk
        exact Or.inl hk
      · have hstep : run_collection maxF s ((key, res) :: rest) =
            run_collection maxF (run_collection_unit maxF s key res) rest := by
          simp [run_collection, hkc, hstop]
        rw [hstep] at hk
        obtain ⟨hc, _, _, hr⟩ := run_unit_fields maxF s key res
        rcases ih _ k hk with h1 | h1
        · rw [hr] at h1
          rcases List.mem_append.mp h1 with h2 | h2
          · exact Or.inl h2
          · simp only [List.mem_singleton] at h2
            subst h2
            exact Or.inr hkc
        · rw [hc] at h1
          right
          intro hmem
          exact h1 (List.mem_append.mpr (Or.inl hmem))

lemma run_requests_sublist (maxF : ℕ) :
    ∀ (units : List (String × Option ℕ)) (s : RunState),
      List.Sublist (run_collection maxF s units).requests
        (s.requests ++ units.map Prod.fst) := by
  intro units
  induction units with
  | nil => intro s; simp [run_collection]
  | cons u rest ih =>
    intro s
    obtain ⟨key, res⟩ := u
    by_cases hk : key ∈ s.progress.completed
    · rw [run_collection_skip maxF s key res rest hk]
      refine (ih s).trans ?_
      refine List.Sublist.append_left ?_ s.requests
      simp only [List.map_cons]
      exact List.sublist_cons_self key (rest.map Prod.fst)
    · by_cases hstop : s.breaker.auto_stop_triggered = true
      · simp only [run_collection, if_neg hk, if_pos hstop]
        simp
      · have hstep : run_collection maxF s ((key, res) :: rest) =
            run_collection maxF (run_collection_unit maxF s key res) rest := by
          simp [run_collection, hk, hstop]
        rw [hstep]
        refine (ih _).trans ?_
        rw [(run_unit_fields maxF s key res).2.2.2]
        simp only [List.map_cons, List.append_assoc, List.singleton_append]
        exact List.Sublist.refl _

lemma run_requests_all_success (maxF : ℕ) :
    ∀ (units : List (String × Option ℕ)) (s : RunState),
      s.breaker.auto_stop_triggered = false →
      (∀ u ∈ units, (u.2 : Option ℕ).isSome = true) →
      (run_collection maxF s units).requests =
        s.requests ++ remaining_keys s.progress.completed units := by
  intro units
  induction units with
  | nil => intro s _ _; simp [run_collection, remaining_keys]
  | cons u rest ih =>
    intro s hstop hsucc
    obtain ⟨key, res⟩ := u
    obtain ⟨rows, hrows⟩ := Option.isSome_iff_exists.mp (hsucc (key, res) (by simp))
    subst hrows
    by_cases hk : key ∈ s.progress.completed
    · rw [run_collection_skip maxF s key (some rows) rest hk]
      rw [ih s hstop (fun u hu => hsucc u (List.mem_cons_of_mem _ hu))]
      simp [remaining_keys, hk]
    · have hstep : run_collection maxF s ((key, some rows) :: rest) =
          run_collection maxF (run_collection_unit maxF s key (some rows)) rest := by
        simp [run_collection, hk, hstop]
      rw [hstep]
      have hstop1 : (run_collection_unit maxF s key (some rows)).breaker.auto_stop_triggered =
          false := by
        rw [run_unit_success_breaker]
        simp [breakerStep, hstop]
      rw [ih _ hstop1 (fun u hu => hsucc u (List.mem_cons_of_mem _ hu))]
      obtain ⟨hc, _, _, hr⟩ := run_unit_fields maxF s key (some rows)
      rw [hc, hr]
      simp [remaining_keys, hk]

/-- C2: a work unit whose combination key is already in the checkpoint
is skipped with no side effects at all (the run continues on the
remaining units from an unchanged state, so no request, no output row,
no checkpoint write and no rate-limiter wait happen); consequently a
run started from a loaded checkpoint issues requests only for keys not
in the checkpoint, as a subsequence of the cross-product order, with no
key requested twice, and — when the executor calls succeed — exactly
for the remaining keys in original order. -/
theorem c2_resume_skip (maxF : ℕ) (loaded : Progress)
    (units : List (String × Option ℕ))
    (hsucc : ∀ u ∈ units, (u.2 : Option ℕ).isSome = true) :
    (∀ (s : RunState) (key : String) (res : Option ℕ) (rest : List (String × Option ℕ)),
      key ∈ s.progress.completed →
      run_collection maxF s ((key, res) :: rest) = run_collection maxF s rest) ∧
    (run_collection maxF (init_state loaded) units).requests.Nodup ∧
    (∀ k ∈ (run_collection maxF (init_state loaded) units).requests,
      k ∉ loaded.completed) ∧
    List.Sublist (run_collection maxF (init_state loaded) units).requests
      (units.map Prod.fst) ∧
    (run_collection maxF (init_state loaded) units).requests =
      remaining_keys loaded.completed units := by
  refine ⟨?_, ?_, ?_, ?_, ?_⟩
  · intro s key res rest h
    exact run_collection_skip maxF s key res rest h
  · exact run_requests_nodup maxF units (init_state loaded) (by simp [init_state]) (by simp [init_state])
  · intro k hk
    rcases run_requests_fresh maxF units (init_state loaded) k hk with h | h
    · simp [init_state] at h
    · simpa [init_state] using h
  · have h := run_requests_sublist maxF units (init_state loaded)
    simpa [init_state] using h
  · have h := run_requests_all_success maxF units (init_state loaded) (by simp [init_state]) hsucc
    simpa [init_state] using h

/-- Witness for c2_resume_skip: starting from a checkpoint that already
contains B_2, a run over A_1 twice and B_2 issues exactly one request,
for A_1. -/
theorem c2_resume_skip_witness :
    (run_collection 10 (init_state ⟨["B_2"], 1⟩)
        [("A_1", some 1), ("A_1", some 2), ("B_2", some 0)]).requests =
      remaining_keys ["B_2"] [("A_1", some 1), ("A_1", some 2), ("B_2", some 0)] :=
  (c2_resume_skip 10 ⟨["B_2"], 1⟩
    [("A_1", some 1), ("A_1", some 2), ("B_2", some 0)] (by decide)).2.2.2.2

/-- C6: every processed work unit — success or failure — appends its
key to the checkpoint's completed list, increments the total-processed
counter by exactly one, and persists the full updated checkpoint before
the next unit (the persisted copy equals the in-memory progress right
after the unit); consequently the checkpoint only grows during a run,
and when the counter equals the completed-list size at load time the
equality holds after the whole run as well. -/
theorem c6_checkpoint_growth (maxF : ℕ) (s : RunState)
    (units : List (String × Option ℕ))
    (hsync : s.saved = s.progress)
    (hcount : s.progress.total_processed = s.progress.completed.length) :
    (∀ (key : String) (res : Option ℕ),
      (run_collection_unit maxF s key res).progress.completed =
        s.progress.completed ++ [key] ∧
      (run_collection_unit maxF s key res).progress.total_processed =
        s.progress.total_processed + 1 ∧
      (run_collection_unit maxF s key res).saved =
        (run_collection_unit maxF s key res).progress) ∧
    (∃ t, (run_collection maxF s units).progress.completed =
      s.progress.completed ++ t) ∧
    (run_collection maxF s units).saved = (run_collection maxF s units).progress ∧
    (run_collection maxF s units).progress.total_processed =
      (run_collection maxF s units).progress.completed.length := by
  refine ⟨?_, run_completed_extend maxF units s, run_saved_sync maxF units s hsync, ?_⟩
  · intro key res
    obtain ⟨h1, h2, h3, _⟩ := run_unit_fields maxF s key res
    exact ⟨h1, h2, h3⟩
  · have h := run_counter_delta maxF units s
    omega

/-- Witness for c6_checkpoint_growth: after processing one success and
one failure from an empty checkpoint, the counter equals the size of
the completed list. -/
theorem c6_checkpoint_growth_witness :
    (run_collection 10 (init_state ⟨[], 0⟩)
        [("A_1", some 2), ("B_2", none)]).progress.total_processed =
      (run_collection 10 (init_state ⟨[], 0⟩)
        [("A_1", some 2), ("B_2", none)]).progress.completed.length :=
  (c6_checkpoint_growth 10 (init_state ⟨[], 0⟩) [("A_1", some 2), ("B_2", none)]
    rfl rfl).2.2.2

/-- C7: once the breaker has tripped the orchestrator issues no further
API request — the run returns with the state unchanged from the point
of the trip; the failing unit that causes the trip still gets its
checkpoint entry persisted (its key is in the saved completed list and
the saved copy equals the in-memory progress); and every key actually
requested during a run is in the persisted checkpoint at the end. -/
theorem c7_trip_halts (maxF : ℕ) (s : RunState) (units : List (String × Option ℕ))
    (hreq : ∀ k ∈ s.requests, k ∈ s.progress.completed)
    (hsync : s.saved = s.progress) :
    (s.breaker.auto_stop_triggered = true → run_collection maxF s units = s) ∧
    (∀ key : String,
      (maxF ≤ s.breaker.consecutive_failures + 1 →
        (run_collection_unit maxF s key none).breaker.auto_stop_triggered = true) ∧
      key ∈ (run_collection_unit maxF s key none).saved.completed ∧
      (run_collection_unit maxF s key none).saved =
        (run_collection_unit maxF s key none).progress) ∧
    (∀ k ∈ (run_collection maxF s units).requests,
      k ∈ (run_collection maxF s units).saved.completed) := by
  refine ⟨run_collection_halted maxF units s, ?_, ?_⟩
  · intro key
    refine ⟨?_, ?_, (run_unit_fields maxF s key none).2.2.1⟩
    · intro hthresh
      rw [run_unit_failure_breaker]
      unfold breakerStep
      simp only [Bool.false_eq_true, if_false]
      rw [if_pos hthresh]
    · rw [(run_unit_fields maxF s key none).2.2.1,
        (run_unit_fields maxF s key none).1]
      simp
  · intro k hk
    rw [run_saved_sync maxF units s hsync]
    exact run_requests_covered maxF units s hreq k hk

/-- Witness for c7_trip_halts: with threshold 1 a single failing unit
trips the breaker, yet its key is persisted; every requested key is in
the final checkpoint. -/
theorem c7_trip_halts_witness :
    ("A_1" ∈ (run_collection_unit 1 (init_state ⟨[], 0⟩) "A_1" none).saved.completed) ∧
    (∀ k ∈ (run_collection 1 (init_state ⟨[], 0⟩) [("A_1", none), ("B_2", none)]).requests,
      k ∈ (run_collection 1 (init_state ⟨[], 0⟩)
        [("A_1", none), ("B_2", none)]).saved.completed) :=
  ⟨((c7_trip_halts 1 (init_state ⟨[], 0⟩) [("A_1", none), ("B_2", none)]
      (by simp [init_state]) rfl).2.1 "A_1").2.1,
    (c7_trip_halts 1 (init_state ⟨[], 0⟩) [("A_1", none), ("B_2", none)]
      (by simp [init_state]) rfl).2.2⟩

/-! ## Executor lemmas -/

section ApiLoop

variable (δ : ℕ) (r : ℕ → Bool) (rest : List AttemptOutcome)
variable (attempt rc att : ℕ) (sleeps : List ℕ)

lemma api_loop_nil (refreshed : Bool) :
    api_attempt_loop δ r [] attempt refreshed rc sleeps att = ⟨none, rc, sleeps, att⟩ := rfl

lemma api_loop_success (refreshed : Bool) (body : ℕ) :
    api_attempt_loop δ r (.success body :: rest) attempt refreshed rc sleeps att =
      ⟨some body, rc, sleeps, att + 1⟩ := rfl

lemma api_loop_auth_refreshed :
    api_attempt_loop δ r (.unauthorized :: rest) attempt true rc sleeps att =
      ⟨none, rc, sleeps, att + 1⟩ := by
  simp [api_attempt_loop]

lemma api_loop_auth_ok (h : r rc = true) :
    api_attempt_loop δ r (.unauthorized :: rest) attempt false rc sleeps att =
      api_attempt_loop δ r rest (attempt + 1) true (rc + 1) sleeps (att + 1) := by
  simp [api_attempt_loop, h]

lemma api_loop_auth_fail (h : r rc = false) :
    api_attempt_loop δ r (.unauthorized :: rest) attempt false rc sleeps att =
      ⟨none, rc + 1, sleeps, att + 1⟩ := by
  simp [api_attempt_loop, h]

lemma api_loop_forb_refreshed :
    api_attempt_loop δ r (.forbidden :: rest) attempt true rc sleeps att =
      ⟨none, rc, sleeps, att + 1⟩ := by
  simp [api_attempt_loop]

lemma api_loop_forb_ok (h : r rc = true) :
    api_attempt_loop δ r (.forbidden :: rest) attempt false rc sleeps att =
      api_attempt_loop δ r rest (attempt + 1) true (rc + 1) sleeps (att + 1) := by
  simp [api_attempt_loop, h]

lemma api_loop_forb_fail (h : r rc = false) :
    api_attempt_loop δ r (.forbidden :: rest) attempt false rc sleeps att =
      ⟨none, rc + 1, sleeps, att + 1⟩ := by
  simp [api_attempt_loop, h]

lemma api_loop_rate (refreshed : Bool) :
    api_attempt_loop δ r (.rateLimited :: rest) attempt refreshed rc sleeps att =
      api_attempt_loop δ r rest (attempt + 1) refreshed rc (sleeps ++ [δ * 2]) (att + 1) := rfl

lemma api_loop_other_token_ok (h : r rc = true) :
    api_attempt_loop δ r (.otherStatus true :: rest) attempt false rc sleeps att =
      api_attempt_loop δ r rest (attempt + 1) true (rc + 1) sleeps (att + 1) := by
  simp [api_attempt_loop, h]

lemma api_loop_other_token_fail (h : r rc = false) :
    api_attempt_loop δ r (.otherStatus true :: rest) attempt false rc sleeps att =
      api_attempt_loop δ r rest (attempt + 1) false (rc + 1)
        (sleeps ++ retry_sleep δ rest) (att + 1) := by
  simp [api_attempt_loop, h]

lemma api_loop_other_skip (mt refreshed : Bool) (h : mt = false ∨ refreshed = true) :
    api_attempt_loop δ r (.otherStatus mt :: rest) attempt refreshed rc sleeps att =
      api_attempt_loop δ r rest (attempt + 1) refreshed rc
        (sleeps ++ retry_sleep δ rest) (att + 1) := by
  rcases h with h | h <;> subst h <;> simp [api_attempt_loop]

lemma api_loop_timeout_first_ok (h : r rc = true) :
    api_attempt_loop δ r (.timeout :: rest) 0 false rc sleeps att =
      api_attempt_loop δ r rest 1 true (rc + 1) sleeps (att + 1) := by
  simp [api_attempt_loop, h]

lemma api_loop_timeout_first_fail (h : r rc = false) :
    api_attempt_loop δ r (.timeout :: rest) 0 false rc sleeps att =
      api_attempt_loop δ r rest 1 false (rc + 1)
        (sleeps ++ retry_sleep δ rest) (att + 1) := by
  simp [api_attempt_loop, h]

lemma api_loop_timeout_skip (refreshed : Bool) (h : attempt ≠ 0 ∨ refreshed = true) :
    api_attempt_loop δ r (.timeout :: rest) attempt refreshed rc sleeps att =
      api_attempt_loop δ r rest (attempt + 1) refreshed rc
        (sleeps ++ retry_sleep δ rest) (att + 1) := by
  rcases h with h | h
  · simp [api_attempt_loop, h]
  · subst h
    simp [api_attempt_loop]

lemma api_loop_transport_ok (h : r rc = true) :
    api_attempt_loop δ r (.transportError true :: rest) attempt false rc sleeps att =
      api_attempt_loop δ r rest (attempt + 1) true (rc + 1) sleeps (att + 1) := by
  simp [api_attempt_loop, h]

lemma api_loop_transport_fail (h : r rc = false) :
    api_attempt_loop δ r (.transportError true :: rest) attempt false rc sleeps att =
      api_attempt_loop δ r rest (attempt + 1) false (rc + 1)
        (sleeps ++ retry_sleep δ rest) (att + 1) := by
  simp [api_attempt_loop, h]

lemma api_loop_transport_skip (ma refreshed : Bool) (h : ma = false ∨ refreshed = true) :
    api_attempt_loop δ r (.transportError ma :: rest) attempt refreshed rc sleeps att =
      api_attempt_loop δ r rest (attempt + 1) refreshed rc
        (sleeps ++ retry_sleep δ rest) (att + 1) := by
  rcases h with h | h <;> subst h <;> simp [api_attempt_loop]

end ApiLoop

lemma api_loop_all_but_last (δ : ℕ) (r : ℕ → Bool) :
    ∀ (outs : List AttemptOutcome) (attempt : ℕ) (refreshed : Bool) (rc : ℕ)
      (sleeps : List ℕ) (att : ℕ),
      (refreshed = false → ∀ j, j < rc → r j = false) →
      (refreshed = true → ∀ j, j + 1 < rc → r j = false) →
      ∀ i,
        i + 1 < (api_attempt_loop δ r outs attempt refreshed rc sleeps att).refresh_calls →
        r i = false := by
  intro outs
  induction outs with
  | nil =>
    intro attempt refreshed rc sleeps att h0 h1 i hi
    have hi' : i + 1 < rc := hi
    cases refreshed
    · exact h0 rfl i (by omega)
    · exact h1 rfl i hi'
  | cons o rest ih =>
    intro attempt refreshed rc sleeps att h0 h1 i hi
    have hnew0 : refreshed = false → r rc = false → false = false →
        ∀ j, j < rc + 1 → r j = false := by
      intro hrf hr _ j hj
      rcases Nat.lt_succ_iff_lt_or_eq.mp hj with hlt | heq
      · exact h0 hrf j hlt
      · rw [heq]
        exact hr
    have hnew1 : refreshed = false → true = true → ∀ j, j + 1 < rc + 1 → r j = false := by
      intro hrf _ j hj
      exact h0 hrf j (by omega)
    cases o with
    | success body =>
      have hi' : i + 1 < rc := hi
      cases refreshed
      · exact h0 rfl i (by omega)
      · exact h1 rfl i hi'
    | unauthorized =>
      cases refreshed with
      | false =>
        rcases Bool.eq_false_or_eq_true (r rc) with hr | hr
        · rw [api_loop_auth_ok δ r rest attempt rc att sleeps hr] at hi
          exact ih (attempt + 1) true (rc + 1) sleeps (att + 1)
            (fun h => nomatch h) (hnew1 rfl) i hi
        · rw [api_loop_auth_fail δ r rest attempt rc att sleeps hr] at hi
          have hi' : i + 1 < rc + 1 := hi
          exact h0 rfl i (by omega)
      | true =>
        rw [api_loop_auth_refreshed δ r rest attempt rc att sleeps] at hi
        have hi' : i + 1 < rc := hi
        exact h1 rfl i hi'
    | forbidden =>
      cases refreshed with
      | false =>
        rcases Bool.eq_false_or_eq_true (r rc) with hr | hr
        · rw [api_loop_forb_ok δ r rest attempt rc att sleeps hr] at hi
          exact ih (attempt + 1) true (rc + 1) sleeps (att + 1)
            (fun h => nomatch h) (hnew1 rfl) i hi
        · rw [api_loop_forb_fail δ r rest attempt rc att sleeps hr] at hi
          have hi' : i + 1 < rc + 1 := hi
          exact h0 rfl i (by omega)
      | true =>
        rw [api_loop_forb_refreshed δ r rest attempt rc att sleeps] at hi
        have hi' : i + 1 < rc := hi
        exact h1 rfl i hi'
    | rateLimited =>
      rw [api_loop_rate δ r rest attempt rc att sleeps] at hi
      exact ih (attempt + 1) refreshed rc (sleeps ++ [δ * 2]) (att + 1) h0 h1 i hi
    | otherStatus mt =>
      cases mt with
      | false =>
        rw [api_loop_other_skip δ r rest attempt rc att sleeps false refreshed (Or.inl rfl)] at hi
        exact ih (attempt + 1) refreshed rc (sleeps ++ retry_sleep δ rest) (att + 1) h0 h1 i hi
      | true =>
        cases refreshed with
        | false =>
          rcases Bool.eq_false_or_eq_true (r rc) with hr | hr
          · rw [api_loop_other_token_ok δ r rest attempt rc att sleeps hr] at hi
            exact ih (attempt + 1) true (rc + 1) sleeps (att + 1)
              (fun h => nomatch h) (hnew1 rfl) i hi
          · rw [api_loop_other_token_fail δ r rest attempt rc att sleeps hr] at hi
            exact ih (attempt + 1) false (rc + 1) (sleeps ++ retry_sleep δ rest) (att + 1)
              (hnew0 rfl hr) (fun h => nomatch h) i hi
        | true =>
          rw [api_loop_other_skip δ r rest attempt rc att sleeps true true (Or.inr rfl)] at hi
          exact ih (attempt + 1) true rc (sleeps ++ retry_sleep δ rest) (att + 1) h0 h1 i hi
    | timeout =>
      by_cases ha : attempt = 0
      · subst ha
        cases refreshed with
        | false =>
          rcases Bool.eq_false_or_eq_true (r rc) with hr | hr
          · rw [api_loop_timeout_first_ok δ r rest rc att sleeps hr] at hi
            exact ih 1 true (rc + 1) sleeps (att + 1)
              (fun h => nomatch h) (hnew1 rfl) i hi
          · rw [api_loop_timeout_first_fail δ r rest rc att sleeps hr] at hi
            exact ih 1 false (rc + 1) (sleeps ++ retry_sleep δ rest) (att + 1)
              (hnew0 rfl hr) (fun h => nomatch h) i hi
        | true =>
          rw [api_loop_timeout_skip δ r rest 0 rc att sleeps true (Or.inr rfl)] at hi
          exact ih 1 true rc (sleeps ++ retry_sleep δ rest) (att + 1) h0 h1 i hi
      · rw [api_loop_timeout_skip δ r rest attempt rc att sleeps refreshed (Or.inl ha)] at hi
        exact ih (attempt + 1) refreshed rc (sleeps ++ retry_sleep δ rest) (att + 1) h0 h1 i hi
    | transportError ma =>
      cases ma with
      | false =>
        rw [api_loop_transport_skip δ r rest attempt rc att sleeps false refreshed (Or.inl rfl)] at hi
        exact ih (attempt + 1) refreshed rc (sleeps ++ retry_sleep δ rest) (att + 1) h0 h1 i hi
      | true =>
        cases refreshed with
        | false =>
          rcases Bool.eq_false_or_eq_true (r rc) with hr | hr
          · rw [api_loop_transport_ok δ r rest attempt rc att sleeps hr] at hi
            exact ih (attempt + 1) true (rc + 1) sleeps (att + 1)
              (fun h => nomatch h) (hnew1 rfl) i hi
          · rw [api_loop_transport_fail δ r rest attempt rc att sleeps hr] at hi
            exact ih (attempt + 1) false (rc + 1) (sleeps ++ retry_sleep δ rest) (att + 1)
              (hnew0 rfl hr) (fun h => nomatch h) i hi
        | true =>
          rw [api_loop_transport_skip δ r rest attempt rc att sleeps true true (Or.inr rfl)] at hi
          exact ih (attempt + 1) true rc (sleeps ++ retry_sleep δ rest) (att + 1) h0 h1 i hi

lemma make_api_refresh_all_but_last (δ : ℕ) (r : ℕ → Bool) (outs : List AttemptOutcome) :
    ∀ i, i + 1 < (make_api_request δ r outs).refresh_calls → r i = false :=
  api_loop_all_but_last δ r outs 0 false 0 [] 0
    (fun _ j hj => absurd hj (Nat.not_lt_zero j)) (fun h => nomatch h)

lemma nodup_all_eq_length_le_one (x : ℕ) {l : List ℕ} (hnd : l.Nodup)
    (h : ∀ a ∈ l, a = x) : l.length ≤ 1 := by
  cases l with
  | nil => simp
  | cons a t =>
    cases t with
    | nil => simp
    | cons b t2 =>
      exfalso
      have ha : a = x := h a (by simp)
      have hb : b = x := h b (by simp)
      rw [List.nodup_cons] at hnd
      exact hnd.1 (by simp [ha, hb])

lemma make_api_refresh_successes (δ : ℕ) (r : ℕ → Bool) (outs : List AttemptOutcome) :
    ((List.range (make_api_request δ r outs).refresh_calls).filter fun i => r i).length ≤ 1 := by
  refine nodup_all_eq_length_le_one ((make_api_request δ r outs).refresh_calls - 1)
    ((List.nodup_range _).filter _) ?_
  intro a ha
  rw [List.mem_filter, List.mem_range] at ha
  have hlast := make_api_refresh_all_but_last δ r outs a
  have hnot : ¬(a + 1 < (make_api_request δ r outs).refresh_calls) := by
    intro hlt
    rw [hlast hlt] at ha
    exact absurd ha.2 (by simp)
  omega

lemma api_loop_attempts_ge (δ : ℕ) (r : ℕ → Bool) :
    ∀ (outs : List AttemptOutcome) (attempt : ℕ) (refreshed : Bool) (rc : ℕ)
      (sleeps : List ℕ) (att : ℕ),
      att ≤ (api_attempt_loop δ r outs attempt refreshed rc sleeps att).attempts := by
  intro outs
  induction outs with
  | nil =>
    intro attempt refreshed rc sleeps att
    rw [api_loop_nil]
  | cons o rest ih =>
    intro attempt refreshed rc sleeps att
    cases o with
    | success body =>
      rw [api_loop_success]
      exact Nat.le_succ att
    | unauthorized =>
      cases refreshed with
      | false =>
        rcases Bool.eq_false_or_eq_true (r rc) with hr | hr
        · rw [api_loop_auth_ok δ r rest attempt rc att sleeps hr]
          exact Nat.le_trans (Nat.le_succ att)
            (ih (attempt + 1) true (rc + 1) sleeps (att + 1))
        · rw [api_loop_auth_fail δ r rest attempt rc att sleeps hr]
          exact Nat.le_succ att
      | true =>
        rw [api_loop_auth_refreshed δ r rest attempt rc att sleeps]
        exact Nat.le_succ att
    | forbidden =>
      cases refreshed with
      | false =>
        rcases Bool.eq_false_or_eq_true (r rc) with hr | hr
        · rw [api_loop_forb_ok δ r rest attempt rc att sleeps hr]
          exact Nat.le_trans (Nat.le_succ att)
            (ih (attempt + 1) true (rc + 1) sleeps (att + 1))
        · rw [api_loop_forb_fail δ r rest attempt rc att sleeps hr]
          exact Nat.le_succ att
      | true =>
        rw [api_loop_forb_refreshed δ r rest attempt rc att sleeps]
        exact Nat.le_succ att
    | rateLimited =>
      rw [api_loop_rate δ r rest attempt rc att sleeps]
      exact Nat.le_trans (Nat.le_succ att)
        (ih (attempt + 1) refreshed rc (sleeps ++ [δ * 2]) (att + 1))
    | otherStatus mt =>
      cases mt with
      | false =>
        rw [api_loop_other_skip δ r rest attempt rc att sleeps false refreshed (Or.inl rfl)]
        exact Nat.le_trans (Nat.le_succ att)
          (ih (attempt + 1) refreshed rc (sleeps ++ retry_sleep δ rest) (att + 1))
      | true =>
        cases refreshed with
        | false =>
          rcases Bool.eq_false_or_eq_true (r rc) with hr | hr
          · rw [api_loop_other_token_ok δ r rest attempt rc att sleeps hr]
            exact Nat.le_trans (Nat.le_succ att)
              (ih (attempt + 1) true (rc + 1) sleeps (att + 1))
          · rw [api_loop_other_token_fail δ r rest attempt rc att sleeps hr]
            exact Nat.le_trans (Nat.le_succ att)
              (ih (attempt + 1) false (rc + 1) (sleeps ++ retry_sleep δ rest) (att + 1))
        | true =>
          rw [api_loop_other_skip δ r rest attempt rc att sleeps true true (Or.inr rfl)]
          exact Nat.le_trans (Nat.le_succ att)
            (ih (attempt + 1) true rc (sleeps ++ retry_sleep δ rest) (att + 1))
    | timeout =>
      by_cases ha : attempt = 0
      · subst ha
        cases refreshed with
        | false =>
          rcases Bool.eq_false_or_eq_true (r rc) with hr | hr
          · rw [api_loop_timeout_first_ok δ r rest rc att sleeps hr]
            exact Nat.le_trans (Nat.le_succ att) (ih 1 true (rc + 1) sleeps (att + 1))
          · rw [api_loop_timeout_first_fail δ r rest rc att sleeps hr]
            exact Nat.le_trans (Nat.le_succ att)
              (ih 1 false (rc + 1) (sleeps ++ retry_sleep δ rest) (att + 1))
        | true =>
          rw [api_loop_timeout_skip δ r rest 0 rc att sleeps true (Or.inr rfl)]
          exact Nat.le_trans (Nat.le_succ att)
            (ih 1 true rc (sleeps ++ retry_sleep δ rest) (att + 1))
      · rw [api_loop_timeout_skip δ r rest attempt rc att sleeps refreshed (Or.inl ha)]
        exact Nat.le_trans (Nat.le_succ att)
          (ih (attempt + 1) refreshed rc (sleeps ++ retry_sleep δ rest) (att + 1))
    | transportError ma =>
      cases ma with
      | false =>
        rw [api_loop_transport_skip δ r rest attempt rc att sleeps false refreshed (Or.inl rfl)]
        exact Nat.le_trans (Nat.le_succ att)
          (ih (attempt + 1) refreshed rc (sleeps ++ retry_sleep δ rest) (att + 1))
      | true =>
        cases refreshed with
        | false =>
          rcases Bool.eq_false_or_eq_true (r rc) with hr | hr
          · rw [api_loop_transport_ok δ r rest attempt rc att sleeps hr]
            exact Nat.le_trans (Nat.le_succ att)
              (ih (attempt + 1) true (rc + 1) sleeps (att + 1))
          · rw [api_loop_transport_fail δ r rest attempt rc att sleeps hr]
            exact Nat.le_trans (Nat.le_succ att)
              (ih (attempt + 1) false (rc + 1) (sleeps ++ retry_sleep δ rest) (att + 1))
        | true =>
          rw [api_loop_transport_skip δ r rest attempt rc att sleeps true true (Or.inr rfl)]
          exact Nat.le_trans (Nat.le_succ att)
            (ih (attempt + 1) true rc (sleeps ++ retry_sleep δ rest) (att + 1))

lemma api_loop_attempts_cons (δ : ℕ) (r : ℕ → Bool) (o : AttemptOutcome)
    (rest : List AttemptOutcome) (attempt : ℕ) (refreshed : Bool) (rc : ℕ)
    (sleeps : List ℕ) (att : ℕ) :
    att + 1 ≤ (api_attempt_loop δ r (o :: rest) attempt refreshed rc sleeps att).attempts := by
  cases o with
  | success body =>
    rw [api_loop_success]
  | unauthorized =>
    cases refreshed with
    | false =>
      rcases Bool.eq_false_or_eq_true (r rc) with hr | hr
      · rw [api_loop_auth_ok δ r rest attempt rc att sleeps hr]
        exact api_loop_attempts_ge δ r rest (attempt + 1) true (rc + 1) sleeps (att + 1)
      · rw [api_loop_auth_fail δ r rest attempt rc att sleeps hr]
    | true =>
      rw [api_loop_auth_refreshed δ r rest attempt rc att sleeps]
  | forbidden =>
    cases refreshed with
    | false =>
      rcases Bool.eq_false_or_eq_true (r rc) with hr | hr
      · rw [api_loop_forb_ok δ r rest attempt rc att sleeps hr]
        exact api_loop_attempts_ge δ r rest (attempt + 1) true (rc + 1) sleeps (att + 1)
      · rw [api_loop_forb_fail δ r rest attempt rc att sleeps hr]
    | true =>
      rw [api_loop_forb_refreshed δ r rest attempt rc att sleeps]
  | rateLimited =>
    rw [api_loop_rate δ r rest attempt rc att sleeps]
    exact api_loop_attempts_ge δ r rest (attempt + 1) refreshed rc (sleeps ++ [δ * 2]) (att + 1)
  | otherStatus mt =>
    cases mt with
    | false =>
      rw [api_loop_other_skip δ r rest attempt rc att sleeps false refreshed (Or.inl rfl)]
      exact api_loop_attempts_ge δ r rest (attempt + 1) refreshed rc
        (sleeps ++ retry_sleep δ rest) (att + 1)
    | true =>
      cases refreshed with
      | false =>
        rcases Bool.eq_false_or_eq_true (r rc) with hr | hr
        · rw [api_loop_other_token_ok δ r rest attempt rc att sleeps hr]
          exact api_loop_attempts_ge δ r rest (attempt + 1) true (rc + 1) sleeps (att + 1)
        · rw [api_loop_other_token_fail δ r rest attempt rc att sleeps hr]
          exact api_loop_attempts_ge δ r rest (attempt + 1) false (rc + 1)
            (sleeps ++ retry_sleep δ rest) (att + 1)
      | true =>
        rw [api_loop_other_skip δ r rest attempt rc att sleeps true true (Or.inr rfl)]
        exact api_loop_attempts_ge δ r rest (attempt + 1) true rc
          (sleeps ++ retry_sleep δ rest) (att + 1)
  | timeout =>
    by_cases ha : attempt = 0
    · subst ha
      cases refreshed with
      | false =>
        rcases Bool.eq_false_or_eq_true (r rc) with hr | hr
        · rw [api_loop_timeout_first_ok δ r rest rc att sleeps hr]
          exact api_loop_attempts_ge δ r rest 1 true (rc + 1) sleeps (att + 1)
        · rw [api_loop_timeout_first_fail δ r rest rc att sleeps hr]
          exact api_loop_attempts_ge δ r rest 1 false (rc + 1)
            (sleeps ++ retry_sleep δ rest) (att + 1)
      | true =>
        rw [api_loop_timeout_skip δ r rest 0 rc att sleeps true (Or.inr rfl)]
        exact api_loop_attempts_ge δ r rest 1 true rc (sleeps ++ retry_sleep δ rest) (att + 1)
    · rw [api_loop_timeout_skip δ r rest attempt rc att sleeps refreshed (Or.inl ha)]
      exact api_loop_attempts_ge δ r rest (attempt + 1) refreshed rc
        (sleeps ++ retry_sleep δ rest) (att + 1)
  | transportError ma =>
    cases ma with
    | false =>
      rw [api_loop_transport_skip δ r rest attempt rc att sleeps false refreshed (Or.inl rfl)]
      exact api_loop_attempts_ge δ r rest (attempt + 1) refreshed rc
        (sleeps ++ retry_sleep δ rest) (att + 1)
    | true =>
      cases refreshed with
      | false =>
        rcases Bool.eq_false_or_eq_true (r rc) with hr | hr
        · rw [api_loop_transport_ok δ r rest attempt rc att sleeps hr]
          exact api_loop_attempts_ge δ r rest (attempt + 1) true (rc + 1) sleeps (att + 1)
        · rw [api_loop_transport_fail δ r rest attempt rc att sleeps hr]
          exact api_loop_attempts_ge δ r rest (attempt + 1) false (rc + 1)
            (sleeps ++ retry_sleep δ rest) (att + 1)
      | true =>
        rw [api_loop_transport_skip δ r rest attempt rc att sleeps true true (Or.inr rfl)]
        exact api_loop_attempts_ge δ r rest (attempt + 1) true rc
          (sleeps ++ retry_sleep δ rest) (att + 1)

/-- C4 counterexample: with max_retries = 3 attempts all returning a
non-auth error status whose text mentions token, and a refresh script
that keeps failing, one `make_api_request` call invokes `refresh_token`
three times — refuting the claim that at most one credential refresh is
performed per executor call. -/
theorem c4_refresh_counterexample :
    (make_api_request 2 (fun _ => false)
      [.otherStatus true, .otherStatus true, .otherStatus true]).refresh_calls = 3 ∧
    ¬((make_api_request 2 (fun _ => false)
      [.otherStatus true, .otherStatus true, .otherStatus true]).refresh_calls ≤ 1) := by
  decide

/-- C4 (amended): per executor call, every `refresh_token` invocation
except possibly the last one fails, so at most one refresh succeeds per
call and after a successful refresh no further refresh is attempted; a
401/403 with no prior successful refresh triggers exactly one refresh
and, on refresh success, an immediate retry — the loop continues on the
next attempt with the refreshed flag set and no retry-delay sleep
consumed, and when an attempt remains in the per-call budget a further
attempt is actually begun; a 401/403 arriving after credentials were
already refreshed during the call makes the call return an absent
result immediately, and a 401/403 whose triggered refresh fails does
the same (one further refresh invocation, no further attempts). -/
theorem c4_refresh_amended (retry_delay : ℕ) (refresh_ok : ℕ → Bool)
    (attempt_outcomes : List AttemptOutcome) :
    (∀ i, i + 1 < (make_api_request retry_delay refresh_ok attempt_outcomes).refresh_calls →
      refresh_ok i = false) ∧
    (((List.range
        (make_api_request retry_delay refresh_ok attempt_outcomes).refresh_calls).filter
          fun i => refresh_ok i).length ≤ 1) ∧
    (∀ (rest : List AttemptOutcome) (attempt rc att : ℕ) (sleeps : List ℕ),
      api_attempt_loop retry_delay refresh_ok (.unauthorized :: rest) attempt true rc
        sleeps att = ⟨none, rc, sleeps, att + 1⟩ ∧
      api_attempt_loop retry_delay refresh_ok (.forbidden :: rest) attempt true rc
        sleeps att = ⟨none, rc, sleeps, att + 1⟩ ∧
      (refresh_ok rc = false →
        api_attempt_loop retry_delay refresh_ok (.unauthorized :: rest) attempt false rc
          sleeps att = ⟨none, rc + 1, sleeps, att + 1⟩ ∧
        api_attempt_loop retry_delay refresh_ok (.forbidden :: rest) attempt false rc
          sleeps att = ⟨none, rc + 1, sleeps, att + 1⟩)) ∧
    (∀ (rest : List AttemptOutcome) (attempt rc att : ℕ) (sleeps : List ℕ),
      refresh_ok rc = true →
      (api_attempt_loop retry_delay refresh_ok (.unauthorized :: rest) attempt false rc
          sleeps att =
        api_attempt_loop retry_delay refresh_ok rest (attempt + 1) true (rc + 1)
          sleeps (att + 1)) ∧
      (api_attempt_loop retry_delay refresh_ok (.forbidden :: rest) attempt false rc
          sleeps att =
        api_attempt_loop retry_delay refresh_ok rest (attempt + 1) true (rc + 1)
          sleeps (att + 1)) ∧
      (rest ≠ [] →
        att + 2 ≤ (api_attempt_loop retry_delay refresh_ok (.unauthorized :: rest)
          attempt false rc sleeps att).attempts ∧
        att + 2 ≤ (api_attempt_loop retry_delay refresh_ok (.forbidden :: rest)
          attempt false rc sleeps att).attempts)) := by
  refine ⟨make_api_refresh_all_but_last retry_delay refresh_ok attempt_outcomes,
    make_api_refresh_successes retry_delay refresh_ok attempt_outcomes, ?_, ?_⟩
  · intro rest attempt rc att sleeps
    refine ⟨api_loop_auth_refreshed retry_delay refresh_ok rest attempt rc att sleeps,
      api_loop_forb_refreshed retry_delay refresh_ok rest attempt rc att sleeps, ?_⟩
    intro hr
    exact ⟨api_loop_auth_fail retry_delay refresh_ok rest attempt rc att sleeps hr,
      api_loop_forb_fail retry_delay refresh_ok rest attempt rc att sleeps hr⟩
  · intro rest attempt rc att sleeps hr
    refine ⟨api_loop_auth_ok retry_delay refresh_ok rest attempt rc att sleeps hr,
      api_loop_forb_ok retry_delay refresh_ok rest attempt rc att sleeps hr, ?_⟩
    intro hne
    cases rest with
    | nil => exact absurd rfl hne
    | cons o2 rest2 =>
      constructor
      · rw [api_loop_auth_ok retry_delay refresh_ok (o2 :: rest2) attempt rc att sleeps hr]
        exact api_loop_attempts_cons retry_delay refresh_ok o2 rest2 (attempt + 1) true
          (rc + 1) sleeps (att + 1)
      · rw [api_loop_forb_ok retry_delay refresh_ok (o2 :: rest2) attempt rc att sleeps hr]
        exact api_loop_attempts_cons retry_delay refresh_ok o2 rest2 (attempt + 1) true
          (rc + 1) sleeps (att + 1)

/-- Witness for c4_refresh_amended: at the counterexample input three
refresh invocations happen and all but the last one fail; and on the
successful-refresh path a 401 with an attempt remaining leads to one
refresh, an immediate retry and a returned body (a second attempt is
begun). -/
theorem c4_refresh_amended_witness :
    (make_api_request 2 (fun _ => false)
      [.otherStatus true, .otherStatus true, .otherStatus true]).refresh_calls = 3 ∧
    make_api_request 2 (fun _ => true) [.unauthorized, .success 7, .otherStatus false] =
      ⟨some 7, 1, [], 2⟩ ∧
    (∀ i, i + 1 < (make_api_request 2 (fun _ => false)
        [.otherStatus true, .otherStatus true, .otherStatus true]).refresh_calls →
      (fun _ : ℕ => false) i = false) ∧
    (api_attempt_loop 2 (fun _ => true)
        [.unauthorized, .success 7, .otherStatus false] 0 false 0 [] 0 =
      api_attempt_loop 2 (fun _ => true) [.success 7, .otherStatus false] 1 true 1 [] 1) ∧
    2 ≤ (api_attempt_loop 2 (fun _ => true)
        [.unauthorized, .success 7, .otherStatus false] 0 false 0 [] 0).attempts :=
  ⟨by decide, by decide,
    (c4_refresh_amended 2 (fun _ => false)
      [.otherStatus true, .otherStatus true, .otherStatus true]).1,
    ((c4_refresh_amended 2 (fun _ => true) []).2.2.2
      [.success 7, .otherStatus false] 0 0 0 [] rfl).1,
    (((c4_refresh_amended 2 (fun _ => true) []).2.2.2
      [.success 7, .otherStatus false] 0 0 0 [] rfl).2.2 (by decide)).1⟩

lemma api_loop_result_success (δ : ℕ) (r : ℕ → Bool) :
    ∀ (outs : List AttemptOutcome) (attempt : ℕ) (refreshed : Bool) (rc : ℕ)
      (sleeps : List ℕ) (att : ℕ) (b : ℕ),
      (api_attempt_loop δ r outs attempt refreshed rc sleeps att).result = some b →
      AttemptOutcome.success b ∈ outs := by
  intro outs
  induction outs with
  | nil =>
    intro attempt refreshed rc sleeps att b h
    rw [api_loop_nil] at h
    exact absurd h (by simp)
  | cons o rest ih =>
    intro attempt refreshed rc sleeps att b h
    cases o with
    | success body =>
      rw [api_loop_success] at h
      have hb : body = b := by simpa using h
      rw [← hb]
      exact List.mem_cons_self _ _
    | unauthorized =>
      cases refreshed with
      | false =>
        rcases Bool.eq_false_or_eq_true (r rc) with hr | hr
        · rw [api_loop_auth_ok δ r rest attempt rc att sleeps hr] at h
          exact List.mem_cons_of_mem _ (ih (attempt + 1) true (rc + 1) sleeps (att + 1) b h)
        · rw [api_loop_auth_fail δ r rest attempt rc att sleeps hr] at h
          exact absurd h (by simp)
      | true =>
        rw [api_loop_auth_refreshed δ r rest attempt rc att sleeps] at h
        exact absurd h (by simp)
    | forbidden =>
      cases refreshed with
      | false =>
        rcases Bool.eq_false_or_eq_true (r rc) with hr | hr
        · rw [api_loop_forb_ok δ r rest attempt rc att sleeps hr] at h
          exact List.mem_cons_of_mem _ (ih (attempt + 1) true (rc + 1) sleeps (att + 1) b h)
        · rw [api_loop_forb_fail δ r rest attempt rc att sleeps hr] at h
          exact absurd h (by simp)
      | true =>
        rw [api_loop_forb_refreshed δ r rest attempt rc att sleeps] at h
        exact absurd h (by simp)
    | rateLimited =>
      rw [api_loop_rate δ r rest attempt rc att sleeps] at h
      exact List.mem_cons_of_mem _
        (ih (attempt + 1) refreshed rc (sleeps ++ [δ * 2]) (att + 1) b h)
    | otherStatus mt =>
      cases mt with
      | false =>
        rw [api_loop_other_skip δ r rest attempt rc att sleeps false refreshed (Or.inl rfl)] at h
        exact List.mem_cons_of_mem _
          (ih (attempt + 1) refreshed rc (sleeps ++ retry_sleep δ rest) (att + 1) b h)
      | true =>
        cases refreshed with
        | false =>
          rcases Bool.eq_false_or_eq_true (r rc) with hr | hr
          · rw [api_loop_other_token_ok δ r rest attempt rc att sleeps hr] at h
            exact List.mem_cons_of_mem _ (ih (attempt + 1) true (rc + 1) sleeps (att + 1) b h)
          · rw [api_loop_other_token_fail δ r rest attempt rc att sleeps hr] at h
            exact List.mem_cons_of_mem _
              (ih (attempt + 1) false (rc + 1) (sleeps ++ retry_sleep δ rest) (att + 1) b h)
        | true =>
          rw [api_loop_other_skip δ r rest attempt rc att sleeps true true (Or.inr rfl)] at h
          exact List.mem_cons_of_mem _
            (ih (attempt + 1) true rc (sleeps ++ retry_sleep δ rest) (att + 1) b h)
    | timeout =>
      by_cases ha : attempt = 0
      · subst ha
        cases refreshed with
        | false =>
          rcases Bool.eq_false_or_eq_true (r rc) with hr | hr
          · rw [api_loop_timeout_first_ok δ r rest rc att sleeps hr] at h
            exact List.mem_cons_of_mem _ (ih 1 true (rc + 1) sleeps (att + 1) b h)
          · rw [api_loop_timeout_first_fail δ r rest rc att sleeps hr] at h
            exact List.mem_cons_of_mem _
              (ih 1 false (rc + 1) (sleeps ++ retry_sleep δ rest) (att + 1) b h)
        | true =>
          rw [api_loop_timeout_skip δ r rest 0 rc att sleeps true (Or.inr rfl)] at h
          exact List.mem_cons_of_mem _
            (ih 1 true rc (sleeps ++ retry_sleep δ rest) (att + 1) b h)
      · rw [api_loop_timeout_skip δ r rest attempt rc att sleeps refreshed (Or.inl ha)] at h
        exact List.mem_cons_of_mem _
          (ih (attempt + 1) refreshed rc (sleeps ++ retry_sleep δ rest) (att + 1) b h)
    | transportError ma =>
      cases ma with
      | false =>
        rw [api_loop_transport_skip δ r rest attempt rc att sleeps false refreshed (Or.inl rfl)] at h
        exact List.mem_cons_of_mem _
          (ih (attempt + 1) refreshed rc (sleeps ++ retry_sleep δ rest) (att + 1) b h)
      | true =>
        cases refreshed with
        | false =>
          rcases Bool.eq_false_or_eq_true (r rc) with hr | hr
          · rw [api_loop_transport_ok δ r rest attempt rc att sleeps hr] at h
            exact List.mem_cons_of_mem _ (ih (attempt + 1) true (rc + 1) sleeps (att + 1) b h)
          · rw [api_loop_transport_fail δ r rest attempt rc att sleeps hr] at h
            exact List.mem_cons_of_mem _
              (ih (attempt + 1) false (rc + 1) (sleeps ++ retry_sleep δ rest) (att + 1) b h)
        | true =>
          rw [api_loop_transport_skip δ r rest attempt rc att sleeps true true (Or.inr rfl)] at h
          exact List.mem_cons_of_mem _
            (ih (attempt + 1) true rc (sleeps ++ retry_sleep δ rest) (att + 1) b h)

/-- C5: the executor is a total function into a present/absent result:
a call whose result is present got an HTTP success on one of its
attempts, and a call none of whose attempts is an HTTP success returns
the absent result after exhausting all attempts rather than raising. -/
theorem c5_executor_never_raises (retry_delay : ℕ) (refresh_ok : ℕ → Bool)
    (attempt_outcomes : List AttemptOutcome) :
    ((∀ o ∈ attempt_outcomes, ∀ b : ℕ, o ≠ .success b) →
      (make_api_request retry_delay refresh_ok attempt_outcomes).result = none) ∧
    (∀ b : ℕ,
      (make_api_request retry_delay refresh_ok attempt_outcomes).result = some b →
      AttemptOutcome.success b ∈ attempt_outcomes) := by
  constructor
  · intro hfail
    rcases hres : (make_api_request retry_delay refresh_ok attempt_outcomes).result with _ | b
    · rfl
    · have hmem := api_loop_result_success retry_delay refresh_ok attempt_outcomes
        0 false 0 [] 0 b hres
      exact absurd rfl (hfail _ hmem b)
  · intro b hres
    exact api_loop_result_success retry_delay refresh_ok attempt_outcomes 0 false 0 [] 0 b hres

/-- Witness for c5_executor_never_raises: a call whose three attempts
are a timeout, a 500-style error and a 429 resolves to the absent
result. -/
theorem c5_executor_never_raises_witness :
    (make_api_request 2 (fun _ => false)
      [.timeout, .otherStatus false, .rateLimited]).result = none :=
  (c5_executor_never_raises 2 (fun _ => false)
    [.timeout, .otherStatus false, .rateLimited]).1
    (by intro o ho b h; subst h; simp at ho)

lemma api_loop_all_rate (δ : ℕ) (r : ℕ → Bool) :
    ∀ (n : ℕ) (attempt : ℕ) (refreshed : Bool) (rc : ℕ) (sleeps : List ℕ) (att : ℕ),
      api_attempt_loop δ r (List.replicate n .rateLimited) attempt refreshed rc sleeps att =
        ⟨none, rc, sleeps ++ List.replicate n (δ * 2), att + n⟩ := by
  intro n
  induction n with
  | zero =>
    intro attempt refreshed rc sleeps att
    simp [api_loop_nil]
  | succ k ih =>
    intro attempt refreshed rc sleeps att
    rw [List.replicate_succ,
      api_loop_rate δ r (List.replicate k AttemptOutcome.rateLimited)
        attempt rc att sleeps refreshed,
      ih (attempt + 1) refreshed rc (sleeps ++ [δ * 2]) (att + 1)]
    have hsl : (sleeps ++ [δ * 2]) ++ List.replicate k (δ * 2) =
        sleeps ++ List.replicate (k + 1) (δ * 2) := by
      simp [List.replicate_succ, List.append_assoc]
    have hat : att + 1 + k = att + (k + 1) := by omega
    rw [hsl, hat]

lemma api_loop_rate_then_success (δ : ℕ) (r : ℕ → Bool) (b : ℕ) :
    ∀ (n : ℕ) (attempt : ℕ) (refreshed : Bool) (rc : ℕ) (sleeps : List ℕ) (att : ℕ),
      api_attempt_loop δ r (List.replicate n .rateLimited ++ [.success b])
          attempt refreshed rc sleeps att =
        ⟨some b, rc, sleeps ++ List.replicate n (δ * 2), att + n + 1⟩ := by
  intro n
  induction n with
  | zero =>
    intro attempt refreshed rc sleeps att
    simp [api_loop_success]
  | succ k ih =>
    intro attempt refreshed rc sleeps att
    rw [List.replicate_succ, List.cons_append,
      api_loop_rate δ r
        (List.replicate k AttemptOutcome.rateLimited ++ [AttemptOutcome.success b])
        attempt rc att sleeps refreshed,
      ih (attempt + 1) refreshed rc (sleeps ++ [δ * 2]) (att + 1)]
    have hsl : (sleeps ++ [δ * 2]) ++ List.replicate k (δ * 2) =
        sleeps ++ List.replicate (k + 1) (δ * 2) := by
      simp [List.replicate_succ, List.append_assoc]
    have hat : att + 1 + k + 1 = att + (k + 1) + 1 := by omega
    rw [hsl, hat]

/-- C8 counterexample: with max_retries = 3 and all three attempts
rate-limited, the call sleeps double the retry delay three times (third
attempt included) but then returns the absent result — the attempt at
index 2 receives a 429 yet is not followed by a retry, refuting the
unconditional "sleeps ... and then retries". -/
theorem c8_rate_limit_counterexample :
    ([AttemptOutcome.rateLimited, .rateLimited, .rateLimited][2]? =
      some AttemptOutcome.rateLimited) ∧
    (make_api_request 2 (fun _ => false)
      [.rateLimited, .rateLimited, .rateLimited]).attempts = 3 ∧
    (make_api_request 2 (fun _ => false)
      [.rateLimited, .rateLimited, .rateLimited]).sleeps = [4, 4, 4] ∧
    (make_api_request 2 (fun _ => false)
      [.rateLimited, .rateLimited, .rateLimited]).result = none ∧
    ¬(2 + 1 < (make_api_request 2 (fun _ => false)
      [.rateLimited, .rateLimited, .rateLimited]).attempts) := by
  decide

/-- C8 (amended): every attempt that receives a 429 sleeps for double
the normal retry delay and the call proceeds to the next attempt when
one remains within the per-call budget (a run of n rate-limited
attempts produces exactly n double-delay sleeps and n attempts, and a
success after them still returns the body); a 429 never reaches the
circuit breaker by itself — the breaker sees only the call's overall
present/absent result, resetting on a present result even after
rate-limited attempts and counting a single failure for a call whose
attempts were all rate-limited. -/
theorem c8_rate_limit_amended (retry_delay : ℕ) (refresh_ok : ℕ → Bool) :
    (∀ n : ℕ, make_api_request retry_delay refresh_ok (List.replicate n .rateLimited) =
      ⟨none, 0, List.replicate n (retry_delay * 2), n⟩) ∧
    (∀ (n b : ℕ), make_api_request retry_delay refresh_ok
        (List.replicate n .rateLimited ++ [.success b]) =
      ⟨some b, 0, List.replicate n (retry_delay * 2), n + 1⟩) ∧
    (∀ (maxF : ℕ) (s : RunState) (key : String) (n b : ℕ),
      (run_collection_unit maxF s key
        (make_api_request retry_delay refresh_ok
          (List.replicate n .rateLimited ++ [.success b])).result).breaker.consecutive_failures
        = 0) ∧
    (∀ (maxF : ℕ) (s : RunState) (key : String) (n : ℕ),
      (run_collection_unit maxF s key
        (make_api_request retry_delay refresh_ok
          (List.replicate (n + 1) .rateLimited)).result).breaker.consecutive_failures =
        s.breaker.consecutive_failures + 1) := by
  have hall : ∀ n : ℕ,
      make_api_request retry_delay refresh_ok (List.replicate n .rateLimited) =
        ⟨none, 0, List.replicate n (retry_delay * 2), n⟩ := by
    intro n
    have h := api_loop_all_rate retry_delay refresh_ok n 0 false 0 [] 0
    simpa [make_api_request] using h
  have hsucc : ∀ (n b : ℕ),
      make_api_request retry_delay refresh_ok
          (List.replicate n .rateLimited ++ [.success b]) =
        ⟨some b, 0, List.replicate n (retry_delay * 2), n + 1⟩ := by
    intro n b
    have h := api_loop_rate_then_success retry_delay refresh_ok b n 0 false 0 [] 0
    simpa [make_api_request] using h
  refine ⟨hall, hsucc, ?_, ?_⟩
  · intro maxF s key n b
    rw [hsucc n b]
    rw [run_unit_success_breaker]
    simp [breakerStep]
  · intro maxF s key n
    rw [hall (n + 1)]
    rw [run_unit_failure_breaker]
    simp [breakerStep]

/-- C9: every invocation of `refresh_token` either replaces the token
and the member identifier together — the instance field, the header,
the static parameter and both environment mirrors all receive the same
new non-empty pair — and reports success, or leaves every credential
field untouched and reports failure; no partial update is possible. -/
theorem c9_refresh_atomic (st : CredState) (script_output : Option (List String)) :
    ((refresh_token st script_output).2 = true ∧
      ∃ t m, t ≠ "" ∧ m ≠ "" ∧
        (refresh_token st script_output).1 = ⟨t, t, m, t, m⟩) ∨
    ((refresh_token st script_output).2 = false ∧
      (refresh_token st script_output).1 = st) := by
  cases script_output with
  | none =>
    right
    exact ⟨rfl, rfl⟩
  | some lines =>
    rcases hp : parse_refresh_output lines with ⟨nt, nm⟩
    cases nt with
    | none =>
      right
      constructor <;> simp [refresh_token, hp]
    | some t =>
      cases nm with
      | none =>
        right
        constructor <;> simp [refresh_token, hp]
      | some m =>
        by_cases hc : t ≠ "" ∧ m ≠ ""
        · left
          exact ⟨by simp [refresh_token, hp, hc], t, m, hc.1, hc.2,
            by simp [refresh_token, hp, hc]⟩
        · right
          constructor <;> simp [refresh_token, hp, hc]

lemma run_requests_from_units (maxF : ℕ) :
    ∀ (units : List (String × Option ℕ)) (s : RunState),
      ∀ k ∈ (run_collection maxF s units).requests,
        k ∈ s.requests ∨ k ∈ units.map Prod.fst := by
  intro units
  induction units with
  | nil => intro s k hk; exact Or.inl hk
  | cons u rest ih =>
    intro s k hk
    obtain ⟨key, res⟩ := u
    by_cases hkc : key ∈ s.progress.completed
    · rw [run_collection_skip maxF s key res rest hkc] at hk
      rcases ih s k hk with h | h
      · exact Or.inl h
      · exact Or.inr (by simp only [List.map_cons]; exact List.mem_cons_of_mem _ h)
    · by_cases hstop : s.breaker.auto_stop_triggered = true
      · simp only [run_collection, if_neg hkc, if_pos hstop] at hk
        exact Or.inl hk
      · have hstep : run_collection maxF s ((key, res) :: rest) =
            run_collection maxF (run_collection_unit maxF s key res) rest := by
          simp [run_collection, hkc, hstop]
        rw [hstep] at hk
        rcases ih _ k hk with h | h
        · rw [(run_unit_fields maxF s key res).2.2.2] at h
          rcases List.mem_append.mp h with h1 | h1
          · exact Or.inl h1
          · simp only [List.mem_singleton] at h1
            subst h1
            exact Or.inr (by simp)
        · exact Or.inr (by simp only [List.map_cons]; exact List.mem_cons_of_mem _ h)

/-- C10: every entry of the geocoded workload has resolved coordinates
(it records exactly what the geocoder returned) and a non-empty city —
the default state ++ "_City" is substituted when the geocoder returned
an empty city; a location the geocoder cannot resolve contributes no
entry at all, hence no work unit of the cross product and no request of
any run over those units ever names it. -/
theorem c10_geocode_filter (geo : String → String → Option (ℚ × ℚ × String))
    (state_files : List (String × List String)) (drug_codes : List String) :
    (∀ e ∈ get_zip_codes_with_coordinates geo state_files,
      ∃ c, geo e.zip e.state = some (e.lat, e.lng, c) ∧
        e.city = (if c = "" then e.state ++ "_City" else c)) ∧
    (∀ e ∈ get_zip_codes_with_coordinates geo state_files, e.city ≠ "") ∧
    (∀ z s, geo z s = none →
      ∀ e ∈ get_zip_codes_with_coordinates geo state_files,
        ¬(e.zip = z ∧ e.state = s)) ∧
    (∀ k ∈ work_units drug_codes (get_zip_codes_with_coordinates geo state_files),
      ∃ code ∈ drug_codes, ∃ e ∈ get_zip_codes_with_coordinates geo state_files,
        k = combination_key code e.zip) ∧
    (∀ (maxF : ℕ) (st : RunState) (units : List (String × Option ℕ)),
      units.map Prod.fst =
        work_units drug_codes (get_zip_codes_with_coordinates geo state_files) →
      ∀ k ∈ (run_collection maxF st units).requests,
        k ∈ st.requests ∨
          k ∈ work_units drug_codes (get_zip_codes_with_coordinates geo state_files)) := by
  have hchar : ∀ e ∈ get_zip_codes_with_coordinates geo state_files,
      ∃ c, geo e.zip e.state = some (e.lat, e.lng, c) ∧
        e.city = (if c = "" then e.state ++ "_City" else c) := by
    intro e he
    unfold get_zip_codes_with_coordinates at he
    rw [List.mem_flatMap] at he
    obtain ⟨sf, hsf, he2⟩ := he
    rw [List.mem_filterMap] at he2
    obtain ⟨z, hz, hmatch⟩ := he2
    rcases hgeo : geo z sf.1 with _ | ⟨lat, lng, city⟩
    · rw [hgeo] at hmatch
      exact absurd hmatch (by simp)
    · rw [hgeo] at hmatch
      simp only [Option.some.injEq] at hmatch
      subst hmatch
      exact ⟨city, by simpa using hgeo, rfl⟩
  refine ⟨hchar, ?_, ?_, ?_, ?_⟩
  · intro e he
    obtain ⟨c, hgeo, hcity⟩ := hchar e he
    rw [hcity]
    split_ifs with hce
    · intro habs
      have hlen := congrArg String.length habs
      rw [String.length_append] at hlen
      have h5 : ("_City" : String).length = 5 := rfl
      have h0 : ("" : String).length = 0 := rfl
      omega
    · exact hce
  · intro z s hnone e he ⟨hz, hs⟩
    obtain ⟨c, hgeo, _⟩ := hchar e he
    rw [hz, hs, hnone] at hgeo
    exact absurd hgeo (by simp)
  · intro k hk
    unfold work_units at hk
    rw [List.mem_flatMap] at hk
    obtain ⟨code, hcode, hk2⟩ := hk
    rw [List.mem_map] at hk2
    obtain ⟨e, he, hke⟩ := hk2
    exact ⟨code, hcode, e, he, hke.symm⟩
  · intro maxF st units hmap k hk
    rcases run_requests_from_units maxF units st k hk with h | h
    · exact Or.inl h
    · rw [hmap] at h
      exact Or.inr h

/-- Witness for c10_geocode_filter: one resolvable code out of two, a
geocoder returning an empty city, yields exactly one entry carrying the
default city GA_City, which is non-empty. -/
theorem c10_geocode_filter_witness :
    get_zip_codes_with_coordinates
        (fun z _ => if z = "30301" then some ((1 : ℚ), (2 : ℚ), "") else none)
        [("GA", ["30301", "99999"])] =
      [⟨"30301", 1, 2, "GA", "GA_City"⟩] ∧
    (∀ e ∈ get_zip_codes_with_coordinates
        (fun z _ => if z = "30301" then some ((1 : ℚ), (2 : ℚ), "") else none)
        [("GA", ["30301", "99999"])], e.city ≠ "") :=
  ⟨by decide,
    (c10_geocode_filter
      (fun z _ => if z = "30301" then some ((1 : ℚ), (2 : ℚ), "") else none)
      [("GA", ["30301", "99999"])] ["A1"]).2.1⟩

end SidecarCollector
